import Mathlib

/-!
Verification of the lazy query-building layer of `swat/cas/table.py`
(`CASTable` / `CASColumn` and their indexing accessors).

The embedding models the parameter bundle (`ParamManager` storage), the
parameter-accumulating operations (`append_where`, `append_varlist`,
`append_compvars`, `append_comppgm`, `query`, `sort_values`), the indexing
dispatch (`__getitem__`, `CASTableAnyLocationAccessor.__getitem__`,
`_get_table_selection`, `head` / `tail` / `slice`), the column operators
(`CASColumn.add` / `sub` / `_compare` / `_compute`), and the connection
weak-reference protocol (`set_connection` / `get_connection`).

Remote I/O is made observable: every operation that may call
`CASTable._retrieve` returns, next to its result, the list of remote action
names it invokes (e.g. `"table.columninfo"`, `"simple.numrows"`,
`"table.fetch"`).  Server-side state (column metadata, the row count, which
connection objects are still alive, the connection's unique-id generator) is
collected in a `World` record.
-/

deriving instance DecidableEq for Except

namespace Swat

/-! ### String helpers

Character-level models of the Python string operations the source uses
(`str.lower`, `str.strip`, `str.rstrip`, `str.join`, `str.format`,
`in`-substring tests).  They are written over `String.data` so that all of
them reduce inside the kernel. -/

/-- ASCII lower-casing of one character, as CPython's `str.lower` acts on the
ASCII identifiers used for column names. -/
def lowChar (c : Char) : Char :=
  if 'A' ≤ c ∧ c ≤ 'Z' then Char.ofNat (c.toNat + 32) else c

/-- Lower-case a string (model of `str.lower`). -/
def lowStr (s : String) : String := ⟨s.data.map lowChar⟩

/-- Whitespace test used by `strip` / `rstrip`. -/
def isSpaceChar (c : Char) : Bool := c = ' ' ∨ c = '\t' ∨ c = '\n' ∨ c = '\r'

/-- Model of `str.rstrip`. -/
def trimR (s : String) : String := ⟨(s.data.reverse.dropWhile isSpaceChar).reverse⟩

/-- Model of `str.strip`. -/
def trimS (s : String) : String :=
  ⟨((s.data.dropWhile isSpaceChar).reverse.dropWhile isSpaceChar).reverse⟩

/-- Model of `sep.join(items)` (Python `str.join`). -/
def interc (sep : String) : List String → String
  | [] => ""
  | [x] => x
  | x :: xs => x ++ sep ++ interc sep xs

/-- Model of `''.join(items)`. -/
def joinStrs : List String → String
  | [] => ""
  | x :: xs => x ++ joinStrs xs

/-- Number of (possibly overlapping) occurrences of `needle` in the suffixes
of a character list. -/
def countOccurAux (needle : List Char) : List Char → Nat
  | [] => 0
  | c :: rest => (if needle.isPrefixOf (c :: rest) then 1 else 0) + countOccurAux needle rest

/-- Number of occurrences of `needle` inside `hay`. -/
def countOccur (needle hay : String) : Nat := countOccurAux needle.data hay.data

/-- Model of the Python substring test `needle in hay`. -/
def hasSubstr (hay needle : String) : Bool := countOccur needle hay != 0

/-- Model of `str.endswith`. -/
def endsWithStr (s suffix : String) : Bool := suffix.data.isSuffixOf s.data

/-- Model of `re.search(r';\s*$', s)`: after stripping trailing whitespace the
string ends in a semicolon. -/
def endsSemi (s : String) : Bool := endsWithStr (trimR s) ";"

/-- Model of `_escape_string` (table.py): double every `"`. -/
def escapeString (v : String) : String :=
  ⟨v.data.foldr (fun c acc => if c = '"' then '"' :: '"' :: acc else c :: acc) []⟩

/-- Model of `_nlit` (table.py): `re.match(r'[A-Za-z_]\w*', name)` anchors at
the start only, so the name is left bare exactly when its first character is
a letter or underscore; otherwise it is escaped and quoted as an n-literal. -/
def nlit (name : String) : String :=
  match name.data with
  | c :: _ => if c.isAlpha || c = '_' then name else "\"" ++ escapeString name ++ "\"n"
  | [] => "\"" ++ escapeString name ++ "\"n"

/-- Fuelled worker for `str.format`-style substitution of `\x7bkey\x7d`
placeholders. -/
def formatAux (vals : List (String × String)) : Nat → List Char → List Char
  | 0, cs => cs
  | _ + 1, [] => []
  | fuel + 1, '{' :: rest =>
      let key : String := ⟨rest.takeWhile (fun c => c != '}')⟩
      let rest2 := (rest.dropWhile (fun c => c != '}')).drop 1
      match vals.find? (fun kv => kv.1 == key) with
      | some kv => kv.2.data ++ formatAux vals fuel rest2
      | none => '{' :: formatAux vals fuel rest
  | fuel + 1, c :: rest => c :: formatAux vals fuel rest

/-- Model of `code.format(**kwargs)` for the placeholder keys the source
uses (`value`, `out`, `other`, ...). -/
def formatTemplate (code : String) (vals : List (String × String)) : String :=
  ⟨formatAux vals code.data.length code.data⟩

/-- Model of `_get_unique(seq)` (table.py): keep the first occurrence of each
item.  The Python implementation adds an item to `seen` only when it is kept. -/
def getUniqueAux (seen : List String) : List String → List String
  | [] => []
  | x :: xs => if x ∈ seen then getUniqueAux seen xs else x :: getUniqueAux (x :: seen) xs

/-- `_get_unique(seq)` with `lowercase=False`. -/
def getUnique (l : List String) : List String := getUniqueAux [] l

/-- Model of `_get_unique(seq, lowercase=True)` (table.py): an item is dropped
when it, or its lower-casing, equals one of the items kept so far (the kept
items are stored in their original case, exactly as in the source). -/
def getUniqueLowerAux (seen : List String) : List String → List String
  | [] => []
  | x :: xs =>
      if x ∈ seen ∨ lowStr x ∈ seen then getUniqueLowerAux seen xs
      else x :: getUniqueLowerAux (x :: seen) xs

/-- `_get_unique(seq, lowercase=True)`. -/
def getUniqueLower (l : List String) : List String := getUniqueLowerAux [] l

/-! ### The parameter bundle

`CASTable` stores its pending-query state in a `ParamManager` bundle
(`swat/cas/utils/params.py`).  That module is not part of the analysed
sources, so its storage is modelled from the spec: an ordered, key/value
store, case-insensitive on key comparisons, case-preserving on storage;
`get` never fails (returns a default), `set` replaces or appends, and the
bundle is copied whenever a handle is cloned ("never shared mutably between
two live handles after a copy"). -/

/-- One `\x7bname, order, formatted\x7d` sort specification
(`CASTable.sort_values`). -/
structure SortKey where
  name : String
  order : String
  formatted : String
deriving DecidableEq, Repr

/-- A parameter value: free-form code text / a table name, a list of column
names, or a list of sort specifications. -/
inductive PValue where
  | str : String → PValue
  | strs : List String → PValue
  | sorts : List SortKey → PValue
deriving DecidableEq, Repr

/-- The parameter bundle: an ordered association list. -/
abbrev Params := List (String × PValue)

/-- Case-insensitive key comparison. -/
def keyEq (a b : String) : Bool := lowStr a == lowStr b

/-- Modelled from the spec: `ParamManager.get_param` — case-insensitive
lookup, never fails. -/
def getParam (p : Params) (k : String) : Option PValue :=
  (p.find? (fun kv => keyEq kv.1 k)).map (fun kv => kv.2)

/-- Modelled from the spec: `ParamManager.set_param` — replace the
case-insensitively matching entry, or append a new one (stored casing is
whatever was first set). -/
def setParam (p : Params) (k : String) (v : PValue) : Params :=
  if (p.find? (fun kv => keyEq kv.1 k)).isSome then
    p.map (fun kv => if keyEq kv.1 k then (kv.1, v) else kv)
  else p ++ [(k, v)]

/-- Modelled from the spec: `ParamManager.has_param`. -/
def hasParam (p : Params) (k : String) : Bool := (getParam p k).isSome

/-- Modelled from the spec: `ParamManager.del_param`. -/
def delParam (p : Params) (k : String) : Params :=
  p.filter (fun kv => !(keyEq kv.1 k))

/-- One direction of bundle equality: every entry of `p` is present in `q`
with the same value. -/
def bundleLe (p q : Params) : Bool := p.all (fun kv => getParam q kv.1 == some kv.2)

/-- Modelled from the spec: whole-bundle equality — identical key sets and
identical values, order-insensitive over keys. -/
def bundleEq (p q : Params) : Bool := bundleLe p q && bundleLe q p

/-! ### Handles, worlds, and errors -/

/-- The table handle (`CASTable`, with `CASColumn` as the `isCol := true`
case, mirroring the Python subclass).  `fetchSortby` is the only action
parameter the analysed operations touch (the `table.fetch` sort order set by
`sort_values`); `conn` is the weak reference installed by `set_connection`
(`none` when never set or set to `None`). -/
structure CASTable where
  params : Params
  fetchSortby : List SortKey
  conn : Option Nat
  isCol : Bool
deriving DecidableEq, Repr

/-- Server-side state, as seen through the narrow interfaces the handle
uses: the table's column metadata (`table.columninfo`), its row count
(`simple.numrows`), the set of connection objects that are still alive
(a dead weak reference dereferences to `None`), and the connection's
unique-id generator (`CAS._gen_id`). -/
structure World where
  colInfo : List (String × String)
  numrows : Int
  liveConns : List Nat
  genId : Nat
deriving DecidableEq, Repr

/-- The Python exception classes raised by the analysed code paths. -/
inductive PyErr where
  | typeError : String → PyErr
  | keyErrorI : Int → PyErr
  | keyErrorS : String → PyErr
  | indexError : String → PyErr
  | attributeError : String → PyErr
  | swatError : String → PyErr
deriving DecidableEq, Repr

/-- `CASTable.set_connection`: store a weak reference (or clear it). -/
def setConnection (t : CASTable) (c : Option Nat) : CASTable := { t with conn := c }

/-- `CASTable.get_connection`: dereference the weak reference; a missing
reference, or one whose target has been released, raises
`SWATError('No connection is currently registered')`. -/
def getConnection (t : CASTable) (w : World) : Except PyErr Nat :=
  match t.conn with
  | none => .error (.swatError "No connection is currently registered")
  | some cid =>
      if cid ∈ w.liveConns then .ok cid
      else .error (.swatError "No connection is currently registered")

/-- Column names reported by the server (`table.columninfo` result). -/
def serverColumns (w : World) : List String := w.colInfo.map (fun kv => kv.1)

/-- Server-reported type of one column (case-insensitive name match). -/
def lookupColType (w : World) (name : String) : Option String :=
  (w.colInfo.find? (fun kv => keyEq kv.1 name)).map (fun kv => kv.2)

/-- The `varlist` parameter as a list (empty when absent or empty). -/
def varlistOf (t : CASTable) : List String :=
  match getParam t.params "varlist" with
  | some (.strs l) => l
  | some (.str s) => [s]
  | _ => []

/-- `CASTable.columns`: the visible columns — the `varlist` parameter when it
is non-empty, otherwise the server's column list obtained through a remote
`table.columninfo` call (`CASTable._columninfo`).  The second component is
the list of remote actions invoked. -/
def columnsOf (t : CASTable) (w : World) : List String × List String :=
  let vl := varlistOf t
  if vl ≠ [] then (vl, []) else (serverColumns w, ["table.columninfo"])

/-- The `compvars` parameter as a list. -/
def compvarsOf (t : CASTable) : List String :=
  match getParam t.params "compvars" with
  | some (.strs l) => l
  | some (.str s) => [s]
  | _ => []

/-- The `comppgm` parameter as a string. -/
def comppgmOf (t : CASTable) : String :=
  match getParam t.params "comppgm" with
  | some (.str s) => s
  | some (.strs l) => joinStrs l
  | _ => ""

/-! ### Parameter-accumulating operations (no remote I/O) -/

/-- `CASTable.append_where` (table.py:747): collect the existing `where`
parameter (a bare string is wrapped in a singleton list), append the
non-empty new items, wrap every condition in parentheses, drop exact textual
duplicates with `_get_unique`, and join with `' and '`. -/
def appendWhere (p : Params) (items : List String) : Params :=
  let code :=
    (match getParam p "where" with
     | none => []
     | some (.str s) => [s]
     | some (.strs l) => l
     | some (.sorts _) => []) ++ items.filter (fun x => x != "")
  let parts := getUnique ((code.filter (fun x => trimS x != "")).map (fun x => "(" ++ x ++ ")"))
  setParam p "where" (.str (interc " and " parts))

/-- `CASTable.query` (table.py:3403) with the default `inplace=False`: deep
copy, then `append_where(expr)`. -/
def query (t : CASTable) (expr : String) : CASTable :=
  { t with params := appendWhere t.params [expr] }

/-- The `where` parameter as a string (empty when absent). -/
def whereStr (t : CASTable) : String :=
  match getParam t.params "where" with
  | some (.str s) => s
  | _ => ""

/-- `CASTable.append_varlist` (table.py:586): when the stored `varlist` is
falsy the current visible columns are fetched (`self.columns`, possibly a
remote `table.columninfo`); non-empty items are appended and the result is
deduplicated with `_get_unique(lowercase=True)`.  Returns the updated handle
and the remote actions invoked. -/
def appendVarlist (t : CASTable) (w : World) (items : List String) :
    CASTable × List String :=
  let vl0 := varlistOf t
  let (vl, log) := if vl0 = [] then columnsOf t w else (vl0, [])
  let vl := vl ++ items.filter (fun x => x != "")
  ({ t with params := setParam t.params "varlist" (.strs (getUniqueLower vl)) }, log)

/-- `CASTable.append_compvars` (table.py:620). -/
def appendCompvars (p : Params) (items : List String) : Params :=
  let l :=
    (match getParam p "compvars" with
     | some (.strs l) => l
     | some (.str s) => [s]
     | _ => []) ++ items.filter (fun x => x != "")
  setParam p "compvars" (.strs (getUniqueLower l))

/-- `CASTable.append_comppgm` (table.py:684): append non-empty code blocks,
terminate every block that does not already end in `;` with `'; '` (after
`rstrip`), deduplicate, and concatenate. -/
def appendComppgm (p : Params) (items : List String) : Params :=
  let code :=
    (match getParam p "comppgm" with
     | some (.str s) => [s]
     | some (.strs l) => l
     | _ => []) ++ items.filter (fun x => x != "")
  let code := code.map (fun b => if endsSemi b then b else trimR b ++ "; ")
  setParam p "comppgm" (.str (joinStrs (getUnique code)))

/-- `CASTable.append_computed_columns` (table.py:719). -/
def appendComputedColumns (p : Params) (names code : List String) : Params :=
  appendComppgm (appendCompvars p names) code

/-- `CASTable.sort_values` (table.py:2842) with `inplace=False`: append one
`\x7bname, order, formatted\x7d` spec per sort column to the `table.fetch`
action parameters; the pending bundle itself is untouched and no remote call
is made. -/
def sortValues (t : CASTable) (cols : List String) (asc : List Bool) : CASTable :=
  { t with
      fetchSortby := t.fetchSortby ++ (cols.zip asc).map (fun ca =>
        { name := ca.1, order := if ca.2 then "ASCENDING" else "DESCENDING",
          formatted := "RAW" }) }

/-- `CASTable.get_groupby_vars` (table.py:3459). -/
def getGroupbyVars (t : CASTable) : List String :=
  match getParam t.params "groupby" with
  | some (.strs l) => l.filter (fun x => x != "")
  | some (.str s) => if s != "" then [s] else []
  | _ => []

/-! ### Column handles -/

/-- `CASColumn.name` (table.py:3899): the single entry of `varlist`. -/
def colName (c : CASTable) : Option String :=
  match getParam c.params "varlist" with
  | some (.strs l) => l.head?
  | some (.str s) => some s
  | _ => none

/-- `CASTable._to_column` (table.py:843): deep copy with `varlist` narrowed
to the one requested name (or the first existing entry), marked as a column;
the connection is carried over when it is still resolvable. -/
def toColumn (t : CASTable) (w : World) (varname : Option String) : CASTable :=
  let params :=
    match varname with
    | some v => setParam t.params "varlist" (.strs [v])
    | none =>
        match varlistOf t with
        | [] => t.params
        | v :: _ => setParam t.params "varlist" (.strs [v])
  { params := params
    fetchSortby := t.fetchSortby
    conn := match getConnection t w with | .ok c => some c | .error _ => none
    isCol := true }

/-- `CASColumn.dtype` (table.py:3907): the type of the first column reported
by a remote `table.columninfo` call; the action is invoked unconditionally
(there is no caching), and a name the server does not know makes the
retrieve raise.  Second component: remote actions invoked. -/
def colDtype (c : CASTable) (w : World) : Except PyErr String × List String :=
  ((match colName c with
    | some n =>
        match lookupColType w n with
        | some ty => .ok ty
        | none => .error (.swatError "table.columninfo failed")
    | none => .error (.swatError "table.columninfo failed")),
   ["table.columninfo"])

/-- The character data types of `CASColumn._is_character` (table.py:3988). -/
def characterTypes : List String := ["char", "varchar", "binary", "varbinary"]

/-- `CASColumn._is_character` applied to a resolved dtype. -/
def colIsCharacter (ty : String) : Bool := characterTypes.contains ty

/-- `CASColumn._is_numeric` applied to a resolved dtype (table.py:3984). -/
def colIsNumeric (ty : String) : Bool := !(characterTypes.contains ty)

/-- Word characters of the regex `^_\w+_[A-Za-z0-9]+_$` used by
`CASColumn.add` to recognise generated column names. -/
def isWordChar (c : Char) : Bool := c.isAlphanum || c = '_'

/-- Decision procedure for `re.match(r'^_\w+_[A-Za-z0-9]+_$', s)`: the name
is `_` + word characters + `_` + alphanumerics + `_`, where greedy matching
with backtracking amounts to splitting at the rightmost inner underscore. -/
def isGenColName (s : String) : Bool :=
  match s.data with
  | '_' :: rest =>
      (match rest.reverse with
       | '_' :: midRev =>
           let tailRev := midRev.takeWhile (fun c => c != '_')
           (match midRev.drop tailRev.length with
            | '_' :: wpart =>
                decide (wpart ≠ []) && wpart.all isWordChar &&
                decide (tailRev ≠ []) && tailRev.all Char.isAlphanum
            | _ => false)
       | _ => false)
  | _ => false

/-- An operand of a column operator: a number, a string literal, or another
column handle. -/
inductive OpVal where
  | num : Int → OpVal
  | str : String → OpVal
  | col : CASTable → OpVal
deriving Repr

/-- Python `repr` of a short string, as used by `CASColumn._compare` for
string right-hand sides. -/
def reprPy (s : String) : String :=
  if s.data.contains '\'' then "\"" ++ s ++ "\"" else "'" ++ s ++ "'"

/-- `CASColumn._compute` (table.py:4222): build a computed column.  Needs a
live connection for the unique suffix (`self.get_connection()._gen_id()`);
makes no remote action call.  A generated output name already registered in
`compvars` short-circuits.  Mirrors the source's assembly order: the
`length` declaration (when `add_length`), then `extra_comppgm`, then the
operand's program, then the formatted statement. -/
def computeCol (c : CASTable) (w : World) (funcname : String) (code : String)
    (other : Option (String × OpVal)) (extraCompvars : List String)
    (extraComppgm : List String) (addLength : Bool) : Except PyErr CASTable :=
  match getConnection c w with
  | .error e => .error e
  | .ok _ =>
      let outname := "_" ++ funcname ++ "_" ++ toString w.genId ++ "_"
      let out := { c with params := setParam c.params "varlist" (.strs [outname]) }
      if outname ∈ compvarsOf c then .ok out
      else
        let osubs : List (String × String) × List String × List String :=
          match other with
          | none => ([], [], [])
          | some (key, .num n) => ([(key, toString n)], [], [])
          | some (key, .str s) => ([(key, "\"" ++ escapeString s ++ "\"")], [], [])
          | some (key, .col oc) =>
              ([(key, nlit ((colName oc).getD ""))], compvarsOf oc, [comppgmOf oc])
        let compvars := outname :: (extraCompvars ++ osubs.2.1)
        let comppgm :=
          (if addLength then ["length " ++ nlit outname ++ " varchar(*)"] else [])
            ++ extraComppgm ++ osubs.2.2
        let code := if !(hasSubstr code "{out}") then "{out} = " ++ code else code
        let code := if endsSemi code then code else code ++ "; "
        let code := formatTemplate code
          ([("value", nlit ((colName c).getD "")), ("out", nlit outname)] ++ osubs.1)
        .ok { out with params := appendComputedColumns out.params compvars (comppgm ++ [code]) }

/-- `CASColumn.sub` (table.py:4026): the dtype is resolved first (a remote
`table.columninfo` call); a character column raises `AttributeError('sub')`,
otherwise a computed `({value}) - ({other})` column is built.  Second
component: remote actions invoked. -/
def colSub (c : CASTable) (w : World) (other : OpVal) :
    Except PyErr CASTable × List String :=
  match colDtype c w with
  | (.error e, log) => (.error e, log)
  | (.ok ty, log) =>
      if colIsCharacter ty then (.error (.attributeError "sub"), log)
      else (computeCol c w "sub" "({value}) - ({other})" (some ("other", other)) [] [] false, log)

/-- `CASColumn.add` (table.py:4008): the dtype is resolved first (a remote
`table.columninfo` call); character columns concatenate (trimming operands
whose names are not generated), numeric columns add. -/
def colAdd (c : CASTable) (w : World) (other : OpVal) :
    Except PyErr CASTable × List String :=
  match colDtype c w with
  | (.error e, log) => (.error e, log)
  | (.ok ty, log) =>
      if colIsCharacter ty then
        let trimValue := if isGenColName ((colName c).getD "") then "" else "trim"
        let trimOther :=
          match other with
          | .col oc => if isGenColName ((colName oc).getD "") then "" else "trim"
          | _ => ""
        (computeCol c w "add" (trimValue ++ "({value}) || " ++ trimOther ++ "({other})")
          (some ("other", other)) [] [] true, log)
      else (computeCol c w "add" "({value}) + ({other})" (some ("other", other)) [] [] false, log)

/-- `OPERATOR_NAMES` (table.py:58). -/
def opNameOf (op : String) : String :=
  match op with
  | "+" => "add" | "-" => "sub" | "*" => "mul" | "/" => "truediv"
  | "//" => "floordiv" | "**" => "pow" | "%" => "mod" | "||" => "cat"
  | ">" => "gt" | "<" => "lt" | ">=" => "ge" | "<=" => "le"
  | "==" => "eq" | "=" => "eq" | "^=" => "ne" | "!=" => "ne"
  | o => o

/-- `CASColumn._compare` (table.py:4329): form `(left op right)` from the
two expressions and hand it to `_compute`; the dtype is NOT consulted, so no
remote action is invoked (second component always empty). -/
def colCompare (c : CASTable) (w : World) (op : String) (other : OpVal) :
    Except PyErr CASTable × List String :=
  let left := nlit ((colName c).getD "")
  let right :=
    match other with
    | .col oc => (nlit ((colName oc).getD ""), compvarsOf oc, [comppgmOf oc])
    | .str s => (reprPy s, [], [])
    | .num n => (toString n, [], [])
  (computeCol c w (opNameOf op)
    ("(" ++ left ++ " " ++ op ++ " " ++ right.1 ++ ")")
    none right.2.1 right.2.2 false, [])

/-- Result of the Python `==` on a handle: `CASTable.__eq__` yields a
boolean, `CASColumn.__eq__` yields a new computed-comparison column. -/
inductive PyEqResult where
  | bool : Bool → PyEqResult
  | col : CASTable → PyEqResult
deriving Repr

/-- The `a == b` dispatch: `CASColumn.__eq__` (table.py:4210) overrides
`CASTable.__eq__` (table.py:985) and builds an element-wise comparison
column via `_compare('=', other)`; plain tables compare parameter bundles.
(The embedding's right-hand side is always a handle, matching the
`isinstance(other, CASTable)` guard.) -/
def pyEq (a b : CASTable) (w : World) : Except PyErr PyEqResult :=
  if a.isCol then (colCompare a w "=" (.col b)).1.map PyEqResult.col
  else .ok (.bool (bundleEq a.params b.params))

/-- Discriminator: did `==` produce the boolean `True`? -/
def isBoolTrue : Except PyErr PyEqResult → Bool
  | .ok (.bool true) => true
  | _ => false

/-! ### Row-range fetches: `head`, `tail`, `slice` -/

/-- A `table.fetch` row range (the remote protocol is 1-based inclusive). -/
structure FetchReq where
  fromRow : Int
  toRow : Int
deriving DecidableEq, Repr

/-- `CASTable.slice` (table.py:1572), restricted to handles without By-group
variables (`none` flags the grouped path, which fans out one fetch per
group): a missing `stop` defaults to `start + 5`; a negative endpoint is
resolved by first fetching the row count (`simple.numrows`); the fetch is
issued with `from_ = start + 1`, `to = stop + 1`.  Second component: remote
actions invoked, in order. -/
def sliceFetch (t : CASTable) (w : World) (start : Int) (stop : Option Int) :
    Option (FetchReq × List String) :=
  if getGroupbyVars t ≠ [] then none
  else
    let stop := match stop with | none => start + 5 | some s => s
    let sl :=
      if start < 0 ∨ stop < 0 then
        ((if start < 0 then w.numrows + start else start),
         (if stop < 0 then w.numrows + stop else stop),
         (["simple.numrows"] : List String))
      else (start, stop, [])
    some ({ fromRow := sl.1 + 1, toRow := sl.2.1 + 1 }, sl.2.2 ++ ["table.fetch"])

/-- `CASTable.head` (table.py:1564): `slice(start=0, stop=n - 1)`. -/
def headFetch (t : CASTable) (w : World) (n : Int) : Option (FetchReq × List String) :=
  sliceFetch t w 0 (some (n - 1))

/-- `CASTable.tail` (table.py:1568): `slice(start=-n, stop=-1)`. -/
def tailFetch (t : CASTable) (w : World) (n : Int) : Option (FetchReq × List String) :=
  sliceFetch t w (-n) (some (-1))

/-! ### The indexing accessors (`ix` / `iloc` / `loc`) -/

/-- A row indexing argument: a slice (`start`, `stop`, both optional) or a
single integer.  (Slices carrying a step other than 1 raise `TypeError`
before anything else and are not modelled.) -/
inductive IdxArg where
  | rowSlice : Option Int → Option Int → IdxArg
  | rowInt : Int → IdxArg
deriving DecidableEq, Repr

/-- `_get_table_selection` (table.py:166) for plain row arguments: a slice
yields `rowstart = args.start or 0` and `rowend = args.stop or (numrows - 1)`
with output type `table` (Python truthiness: a `stop` of `0` also falls back
to the remotely fetched `numrows - 1`); a single integer yields a one-row
`row` selection.  Result: ((start, stop), output type, remote actions). -/
def getTableSelection (w : World) (args : IdxArg) :
    (Int × Int) × String × List String :=
  match args with
  | .rowSlice st sp =>
      let rowstart := match st with | none => 0 | some s => s
      let rowend :=
        match sp with
        | none => (w.numrows - 1, ["simple.numrows"])
        | some s => if s = 0 then (w.numrows - 1, ["simple.numrows"]) else (s, [])
      ((rowstart, rowend.1), "table", rowend.2)
  | .rowInt i => ((i, i), "row", [])

/-- `CASTableAnyLocationAccessor.__getitem__` (table.py:322) for a plain
(non-column) table handle: reject selections whose output type is `table` or
`column` with `TypeError`; under the `ix` accessor reject negative positions
with `KeyError`; resolve remaining negative positions against a freshly
fetched row count; finally issue `table.fetch` with
`from = start + 1, to = stop` (table.py:378). -/
def anyLocGetitem (acc : String) (_t : CASTable) (w : World) (pos : IdxArg) :
    Except PyErr (FetchReq × String × List String) :=
  let sel := getTableSelection w pos
  let start0 := sel.1.1
  let stop0 := sel.1.2
  let dtype := sel.2.1
  let log1 := sel.2.2
  if dtype = "column" ∨ dtype = "table" then
    .error (.typeError "Index must result in either a scalar or a row")
  else if acc = "ix" ∧ start0 < 0 then .error (.keyErrorI start0)
  else if acc = "ix" ∧ stop0 < 0 then .error (.keyErrorI stop0)
  else
    let r1 :=
      if start0 < 0 then (start0 + w.numrows, (["simple.numrows"] : List String))
      else (start0, [])
    let r2 :=
      if stop0 < 0 then
        (stop0 + w.numrows, if start0 < 0 then ([] : List String) else ["simple.numrows"])
      else (stop0, [])
    .ok ({ fromRow := r1.1 + 1, toRow := r2.1 }, dtype,
         log1 ++ r1.2 ++ r2.2 ++ ["table.fetch"])

/-- `CASTable.__getitem__` on a row slice (table.py:3386): delegates to the
`ix` accessor. -/
def tableGetitemSlice (t : CASTable) (w : World) (st sp : Option Int) :
    Except PyErr (FetchReq × String × List String) :=
  anyLocGetitem "ix" t w (.rowSlice st sp)

/-- `CASTable.iloc[...]` (table.py:413): the same accessor with positional
semantics. -/
def ilocGetitem (t : CASTable) (w : World) (pos : IdxArg) :
    Except PyErr (FetchReq × String × List String) :=
  anyLocGetitem "iloc" t w pos

/-! ### `__getitem__`: column selection -/

/-- `CASTable.__getitem__` with a single string key (table.py:3340): a key
matching no visible column case-insensitively raises `KeyError`; otherwise
the handle is narrowed to a one-column handle via `_to_column`.  (On a
`CASColumn` receiver a string key falls through to the final
`raise KeyError(key)`.) -/
def getitemColname (t : CASTable) (w : World) (key : String) :
    Except PyErr CASTable × List String :=
  if t.isCol then (.error (.keyErrorS key), [])
  else
    let cl := columnsOf t w
    if (cl.1.map lowStr).contains (lowStr key) then (.ok (toColumn t w (some key)), cl.2)
    else (.error (.keyErrorS key), cl.2)

/-- A member of a list selection `tbl[[k1, ..., kn]]`: an integer position
or a column name. -/
inductive CKey where
  | pos : Int → CKey
  | name : String → CKey
deriving DecidableEq, Repr

/-- Resolution of one list-selection member against the visible columns:
Python list indexing (`columns[k]`) accepts one negative wrap and raises
`IndexError` out of range; names pass through unchanged. -/
def resolveCKey (cols : List String) : CKey → Except PyErr String
  | .pos i =>
      let idx := if i < 0 then i + cols.length else i
      if 0 ≤ idx ∧ idx < cols.length then .ok (cols.getD idx.toNat "")
      else .error (.indexError "list index out of range")
  | .name s => .ok s

/-- `CASTable.__getitem__` with a list key (table.py:3348): deep copy, read
the visible columns (remote `table.columninfo` when no `varlist` is stored),
resolve integer positions to names, register every name whose lower-casing
is not a visible column as a computed column bound to `name = .;`, and store
the requested names (in order) as the new `varlist`.  Second component:
remote actions invoked. -/
def getitemColList (t : CASTable) (w : World) (keys : List CKey) :
    Except PyErr CASTable × List String :=
  if t.isCol then (.error (.keyErrorS "list selection on a column"), [])
  else
    let cl := columnsOf t w
    let colset := cl.1.map lowStr
    match keys.mapM (resolveCKey cl.1) with
    | .error e => (.error e, cl.2)
    | .ok names =>
        let unknown := names.filter (fun k => !(colset.contains (lowStr k)))
        let comppgm := unknown.map (fun k => nlit k ++ " = .; ")
        let out := { t with params := setParam t.params "varlist" (.strs names) }
        let out :=
          if unknown ≠ [] then
            { out with params := appendComputedColumns out.params unknown comppgm }
          else out
        (.ok out, cl.2)

/-- The result handle of a list selection whose keys all resolved to names
(the explicit shape of `getitemColList`'s success case, used to state its
characterisation). -/
def listSelOut (t : CASTable) (w : World) (names : List String) : CASTable :=
  let unknown := names.filter
    (fun k => !(((columnsOf t w).1.map lowStr).contains (lowStr k)))
  let comppgm := unknown.map (fun k => nlit k ++ " = .; ")
  if unknown ≠ [] then
    { t with
        params := appendComputedColumns (setParam t.params "varlist" (.strs names))
          unknown comppgm }
  else { t with params := setParam t.params "varlist" (.strs names) }

/-- `CASTable.__getitem__` with a boolean-column key (table.py:3368): deep
copy, `append_where` the column's expression, splice its computed variables
and program, and snapshot the visible columns into `varlist` when none is
stored yet (a remote `table.columninfo` in that case).  Second component:
remote actions invoked. -/
def filterByColumn (t : CASTable) (w : World) (key : CASTable) :
    CASTable × List String :=
  let expr := nlit ((colName key).getD "")
  let ecompvars := compvarsOf key
  let ecomppgm := comppgmOf key
  let out := { t with params := appendWhere t.params [expr] }
  let out :=
    if ecompvars ≠ [] then { out with params := appendCompvars out.params ecompvars }
    else out
  let out :=
    if ecomppgm ≠ "" then { out with params := appendComppgm out.params [ecomppgm] }
    else out
  if (getParam out.params "varlist").isNone then
    let cl := columnsOf t w
    ({ out with params := setParam out.params "varlist" (.strs cl.1) }, cl.2)
  else (out, [])

/-! ### A heap model for handle copies

`CASTable.__copy__` (table.py:992) builds `type(self)(**self.params)` and
re-registers the connection.  To make sharing between two live handles
observable, bundles live in an explicit heap and a handle holds an index
into it.  Modelled from the spec: the `ParamManager` constructor storage
(`swat/cas/utils/params.py` is not among the analysed sources); per the spec
the bundle is "copied (shallow or deep) whenever a handle is cloned" and is
"never shared mutably between two live handles after a copy", so cloning
allocates a fresh cell holding a copy of the source bundle. -/

/-- The heap of parameter bundles. -/
abbrev Heap := List Params

/-- A handle as a heap reference plus the weak connection reference. -/
structure HRef where
  pid : Nat
  conn : Option Nat
deriving DecidableEq, Repr

/-- Read a handle's bundle. -/
def heapGet (h : Heap) (pid : Nat) : Params := h.getD pid []

/-- Overwrite a handle's bundle. -/
def heapSet (h : Heap) (pid : Nat) (p : Params) : Heap := h.set pid p

/-- `CASTable.__copy__` in the heap model: allocate a fresh cell with a copy
of the source bundle; `set_connection(self.get_connection())` keeps the weak
reference when it still resolves and otherwise leaves it unset. -/
def shallowCopyH (t : HRef) (h : Heap) (w : World) : HRef × Heap :=
  ({ pid := h.length
     conn :=
       match t.conn with
       | some c => if c ∈ w.liveConns then some c else none
       | none => none },
   h ++ [heapGet h t.pid])

/-- An in-place bundle mutation (`append_varlist`, `append_where`,
`append_orderby`, ... with `inplace=True`) applied through a handle. -/
def mutateH (t : HRef) (h : Heap) (f : Params → Params) : Heap :=
  heapSet h t.pid (f (heapGet h t.pid))

/-! ### The mini language of where-clauses

`append_where` manipulates filter predicates as strings.  To express that an
accumulated `where` parameter is *equivalent* to a conjunction, a small
expression language is introduced with a printer (producing exactly the
strings the source builds) and a boolean denotation over an environment of
column values. -/

/-- Comparison operators of the mini where-clause language. -/
inductive WCmp where
  | gt
  | lt
deriving DecidableEq, Repr

/-- Abstract syntax: a comparison of a column against an integer literal,
parenthesisation, and conjunction via the server's `and`. -/
inductive WExpr where
  | lit : String → WCmp → Int → WExpr
  | paren : WExpr → WExpr
  | conj : WExpr → WExpr → WExpr

/-- Concrete syntax of a comparison operator. -/
def wcmpStr : WCmp → String
  | .gt => ">"
  | .lt => "<"

/-- Printer for the mini language. -/
def printW : WExpr → String
  | .lit c op n => c ++ " " ++ wcmpStr op ++ " " ++ toString n
  | .paren e => "(" ++ printW e ++ ")"
  | .conj a b => printW a ++ " and " ++ printW b

/-- Denotation of the mini language over an environment of column values:
parentheses are transparent, `and` is boolean conjunction. -/
def denoteW (env : String → Int) : WExpr → Bool
  | .lit c .gt n => decide (env c > n)
  | .lit c .lt n => decide (env c < n)
  | .paren e => denoteW env e
  | .conj a b => denoteW env a && denoteW env b

/-! ### Result discriminators (spec-side observations) -/

/-- Did an indexing access construct a fetch request (as opposed to
raising)? -/
def fetchIssued : Except PyErr (FetchReq × String × List String) → Bool
  | .ok _ => true
  | .error _ => false

/-- Is a column-operator result a raised `TypeError`? -/
def raisedTypeError : Except PyErr CASTable → Bool
  | .error (.typeError _) => true
  | _ => false

/-- Is a column-operator result a raised `AttributeError`? -/
def raisedAttributeError : Except PyErr CASTable → Bool
  | .error (.attributeError _) => true
  | _ => false

/-! ### Laws of the parameter bundle -/

theorem keyEq_self (k : String) : keyEq k k = true := by
  simp [keyEq]

theorem keyEq_true_iff (a b : String) : keyEq a b = true ↔ lowStr a = lowStr b := by
  simp [keyEq]

/-- Setting a parameter makes it readable under any casing-equal key. -/
theorem getParam_setParam (p : Params) (k : String) (v : PValue) :
    getParam (setParam p k v) k = some v := by
  unfold setParam getParam
  by_cases h : (List.find? (fun kv => keyEq kv.1 k) p).isSome = true
  · rw [if_pos h, List.find?_map]
    have hc : ((fun kv : String × PValue => keyEq kv.1 k) ∘
        fun kv : String × PValue => if keyEq kv.1 k = true then (kv.1, v) else kv)
          = fun kv : String × PValue => keyEq kv.1 k := by
      funext kv
      by_cases hk : keyEq kv.1 k = true
      · simp [hk]
      · simp [hk]
    rw [hc]
    obtain ⟨kv0, hkv0⟩ := Option.isSome_iff_exists.mp h
    have hp := List.find?_some hkv0
    rw [hkv0]
    simp [hp]
  · rw [if_neg h]
    rw [List.find?_append]
    have hnone : List.find? (fun kv : String × PValue => keyEq kv.1 k) p = none := by
      cases hf : List.find? (fun kv : String × PValue => keyEq kv.1 k) p with
      | none => rfl
      | some kv => rw [hf] at h; simp at h
    rw [hnone]
    simp [List.find?, keyEq_self]

/-- Setting a parameter leaves every casing-distinct parameter unchanged. -/
theorem getParam_setParam_ne (p : Params) (k k2 : String) (v : PValue)
    (hne : keyEq k2 k = false) :
    getParam (setParam p k v) k2 = getParam p k2 := by
  unfold setParam getParam
  by_cases h : (List.find? (fun kv => keyEq kv.1 k) p).isSome = true
  · rw [if_pos h, List.find?_map]
    have hc : ((fun kv : String × PValue => keyEq kv.1 k2) ∘
        fun kv : String × PValue => if keyEq kv.1 k = true then (kv.1, v) else kv)
          = fun kv : String × PValue => keyEq kv.1 k2 := by
      funext kv
      by_cases hk : keyEq kv.1 k = true
      · simp [hk]
      · simp [hk]
    rw [hc]
    cases hf : List.find? (fun kv : String × PValue => keyEq kv.1 k2) p with
    | none => simp
    | some kv0 =>
        have hp2 := List.find?_some hf
        have hk0 : keyEq kv0.1 k = false := by
          by_contra hcontra
          have hk0t : keyEq kv0.1 k = true := by
            cases hb : keyEq kv0.1 k with
            | true => rfl
            | false => exact absurd hb hcontra
          have e1 : lowStr kv0.1 = lowStr k2 := (keyEq_true_iff _ _).mp hp2
          have e2 : lowStr kv0.1 = lowStr k := (keyEq_true_iff _ _).mp hk0t
          have : keyEq k2 k = true := (keyEq_true_iff _ _).mpr (e1 ▸ e2)
          rw [this] at hne
          exact Bool.true_eq_false.mp hne
        simp [hk0]
  · rw [if_neg h, List.find?_append]
    have hone : List.find? (fun kv : String × PValue => keyEq kv.1 k2) [(k, v)] = none := by
      have : keyEq k k2 = false := by
        cases hb : keyEq k k2 with
        | false => rfl
        | true =>
            have e := (keyEq_true_iff _ _).mp hb
            have : keyEq k2 k = true := (keyEq_true_iff _ _).mpr e.symm
            rw [this] at hne
            exact absurd hne (by simp)
      simp [List.find?, this]
    rw [hone]
    simp

/-- `append_where` only writes the `where` parameter. -/
theorem getParam_appendWhere (p : Params) (items : List String) (k : String)
    (hk : keyEq k "where" = false) :
    getParam (appendWhere p items) k = getParam p k := by
  unfold appendWhere
  exact getParam_setParam_ne _ _ _ _ hk

/-- `append_compvars` only writes the `compvars` parameter. -/
theorem getParam_appendCompvars (p : Params) (items : List String) (k : String)
    (hk : keyEq k "compvars" = false) :
    getParam (appendCompvars p items) k = getParam p k := by
  unfold appendCompvars
  exact getParam_setParam_ne _ _ _ _ hk

/-- `append_comppgm` only writes the `comppgm` parameter. -/
theorem getParam_appendComppgm (p : Params) (items : List String) (k : String)
    (hk : keyEq k "comppgm" = false) :
    getParam (appendComppgm p items) k = getParam p k := by
  unfold appendComppgm
  exact getParam_setParam_ne _ _ _ _ hk

/-! ### C2 — filter accumulation -/

/-- C2: applying `filter("a > 1")` then `filter("b < 2")` through
`query`/`append_where` yields a pending `where` parameter that prints an
expression semantically equivalent to `(a > 1) and (b < 2)`.  However,
applying the same textual filter `"a > 1"` in two *successive* calls yields
`"((a > 1)) and (a > 1)"` — the earlier clause is re-wrapped in parentheses,
so the textual duplicate is not recognised and the condition occurs twice;
duplicates are suppressed only among the conditions passed to a single
`append_where` call. -/
theorem C2_where_accumulation (t : CASTable)
    (h : getParam t.params "where" = none) :
    (∃ e : WExpr,
        whereStr (query (query t "a > 1") "b < 2") = printW e
        ∧ ∀ env : String → Int,
            denoteW env e = (decide (env "a" > 1) && decide (env "b" < 2)))
    ∧ whereStr (query (query t "a > 1") "a > 1") = "((a > 1)) and (a > 1)"
    ∧ countOccur "a > 1" (whereStr (query (query t "a > 1") "a > 1")) = 2
    ∧ whereStr { t with params := appendWhere t.params ["a > 1", "a > 1"] } = "(a > 1)"
    ∧ countOccur "a > 1"
        (whereStr { t with params := appendWhere t.params ["a > 1", "a > 1"] }) = 1 := by
  have h1 : appendWhere t.params ["a > 1"] = setParam t.params "where" (.str "(a > 1)") := by
    unfold appendWhere
    rw [h]
    rfl
  have h2 : appendWhere (setParam t.params "where" (.str "(a > 1)")) ["b < 2"]
      = setParam (setParam t.params "where" (.str "(a > 1)")) "where"
          (.str "((a > 1)) and (b < 2)") := by
    unfold appendWhere
    rw [getParam_setParam]
    rfl
  have h2d : appendWhere (setParam t.params "where" (.str "(a > 1)")) ["a > 1"]
      = setParam (setParam t.params "where" (.str "(a > 1)")) "where"
          (.str "((a > 1)) and (a > 1)") := by
    unfold appendWhere
    rw [getParam_setParam]
    rfl
  have h3 : appendWhere t.params ["a > 1", "a > 1"]
      = setParam t.params "where" (.str "(a > 1)") := by
    unfold appendWhere
    rw [h]
    rfl
  have hq : whereStr (query (query t "a > 1") "b < 2") = "((a > 1)) and (b < 2)" := by
    unfold whereStr
    show (match getParam (appendWhere (appendWhere t.params ["a > 1"]) ["b < 2"]) "where" with
          | some (.str s) => s
          | _ => "") = _
    rw [h1, h2, getParam_setParam]
  have hqd : whereStr (query (query t "a > 1") "a > 1") = "((a > 1)) and (a > 1)" := by
    unfold whereStr
    show (match getParam (appendWhere (appendWhere t.params ["a > 1"]) ["a > 1"]) "where" with
          | some (.str s) => s
          | _ => "") = _
    rw [h1, h2d, getParam_setParam]
  have hsingle : whereStr { t with params := appendWhere t.params ["a > 1", "a > 1"] }
      = "(a > 1)" := by
    unfold whereStr
    show (match getParam (appendWhere t.params ["a > 1", "a > 1"]) "where" with
          | some (.str s) => s
          | _ => "") = _
    rw [h3, getParam_setParam]
  refine ⟨⟨.conj (.paren (.paren (.lit "a" .gt 1))) (.paren (.lit "b" .lt 2)), ?_, ?_⟩,
      hqd, ?_, hsingle, ?_⟩
  · rw [hq]
    rfl
  · intro env
    rfl
  · rw [hqd]
    decide
  · rw [hsingle]
    decide

/-- C2 refutation: on a fresh handle, filtering with `"a > 1"` and then
filtering with the same text again leaves the condition twice in the pending
`where` parameter, not exactly once as claimed. -/
theorem C2_counterexample :
    countOccur "a > 1"
      (whereStr (query (query ⟨[("name", PValue.str "tbl")], [], none, false⟩ "a > 1") "a > 1"))
      ≠ 1 := by
  decide

/-- C2 witness: the accumulation theorem instantiated at a fresh handle. -/
theorem C2_where_accumulation_witness :
    (∃ e : WExpr,
        whereStr (query (query ⟨[("name", PValue.str "w2t")], [], none, false⟩ "a > 1") "b < 2")
            = printW e
        ∧ ∀ env : String → Int,
            denoteW env e = (decide (env "a" > 1) && decide (env "b" < 2)))
    ∧ whereStr (query (query ⟨[("name", PValue.str "w2t")], [], none, false⟩ "a > 1") "a > 1")
        = "((a > 1)) and (a > 1)"
    ∧ countOccur "a > 1"
        (whereStr (query (query ⟨[("name", PValue.str "w2t")], [], none, false⟩ "a > 1") "a > 1")) = 2
    ∧ whereStr { (⟨[("name", PValue.str "w2t")], [], none, false⟩ : CASTable) with
          params := appendWhere [("name", PValue.str "w2t")] ["a > 1", "a > 1"] } = "(a > 1)"
    ∧ countOccur "a > 1"
        (whereStr { (⟨[("name", PValue.str "w2t")], [], none, false⟩ : CASTable) with
            params := appendWhere [("name", PValue.str "w2t")] ["a > 1", "a > 1"] }) = 1 :=
  C2_where_accumulation ⟨[("name", PValue.str "w2t")], [], none, false⟩ (by decide)

/-! ### C3 — `head` / `tail` row-range translation -/

/-- C3: on a handle without By-groups, `head(5)` issues one `table.fetch`
for remote rows `from = 1, to = 5` (zero-based positions `[0, 4]`) without
consulting the row count, and `tail(3)` on a table whose row count is 10
first fetches the row count (`simple.numrows`) to resolve the negative
offsets and then issues `table.fetch` for `from = 8, to = 10` (positions
`[7, 9]`). -/
theorem C3_head_tail_ranges (t : CASTable) (w : World)
    (hg : getGroupbyVars t = []) (hn : w.numrows = 10) :
    headFetch t w 5 = some ({ fromRow := 1, toRow := 5 }, ["table.fetch"])
    ∧ tailFetch t w 3 = some ({ fromRow := 8, toRow := 10 }, ["simple.numrows", "table.fetch"]) := by
  obtain ⟨ci, nr, lc, gid⟩ := w
  simp only at hn
  subst hn
  unfold headFetch tailFetch sliceFetch
  rw [hg]
  exact ⟨rfl, rfl⟩

/-- C3 witness: the translation theorem instantiated at a concrete handle
and a server world with 10 rows. -/
theorem C3_head_tail_ranges_witness :
    headFetch ⟨[("name", PValue.str "w3t")], [], none, false⟩ ⟨[], 10, [], 0⟩ 5
        = some ({ fromRow := 1, toRow := 5 }, ["table.fetch"])
    ∧ tailFetch ⟨[("name", PValue.str "w3t")], [], none, false⟩ ⟨[], 10, [], 0⟩ 3
        = some ({ fromRow := 8, toRow := 10 }, ["simple.numrows", "table.fetch"]) :=
  C3_head_tail_ranges ⟨[("name", PValue.str "w3t")], [], none, false⟩ ⟨[], 10, [], 0⟩
    (by decide) (by decide)

/-! ### C4 — row slices and negative positions -/

/-- C4 refutation: on a table with 10 rows, `tbl[-2:-1]` does not resolve to
any row range at all — `CASTable.__getitem__` hands row slices to the `ix`
accessor, which rejects every `table`-shaped selection with
`TypeError('Index must result in either a scalar or a row')` before negative
positions are even examined, so no fetch request is constructed. -/
theorem C4_counterexample :
    fetchIssued (tableGetitemSlice ⟨[("name", PValue.str "tenrows")], [], none, false⟩
        ⟨[], 10, [], 0⟩ (some (-2)) (some (-1))) = false
    ∧ tableGetitemSlice ⟨[("name", PValue.str "tenrows")], [], none, false⟩
        ⟨[], 10, [], 0⟩ (some (-2)) (some (-1))
        = .error (.typeError "Index must result in either a scalar or a row") := by
  exact ⟨rfl, rfl⟩

/-- C4 (amended): on a table whose row count is 10, `tbl[-2:-1]` and
`tbl[8:9]` do have the same behaviour, but both raise `TypeError` (row
slices through the indexing accessors are rejected as `table`-shaped);
negative-position resolution against the freshly fetched row count happens
only for single-row integer indexing: `tbl.iloc[-2]` fetches the row count
and then constructs exactly the fetch request of `tbl.iloc[8]`. -/
theorem C4_slice_negative_positions (t : CASTable) (w : World) (hn : w.numrows = 10) :
    tableGetitemSlice t w (some (-2)) (some (-1))
        = .error (.typeError "Index must result in either a scalar or a row")
    ∧ tableGetitemSlice t w (some 8) (some 9)
        = .error (.typeError "Index must result in either a scalar or a row")
    ∧ ilocGetitem t w (.rowInt (-2))
        = .ok ({ fromRow := 9, toRow := 8 }, "row", ["simple.numrows", "table.fetch"])
    ∧ ilocGetitem t w (.rowInt 8)
        = .ok ({ fromRow := 9, toRow := 8 }, "row", ["table.fetch"])
    ∧ (ilocGetitem t w (.rowInt (-2))).map (fun r => r.1)
        = (ilocGetitem t w (.rowInt 8)).map (fun r => r.1) := by
  obtain ⟨ci, nr, lc, gid⟩ := w
  simp only at hn
  subst hn
  exact ⟨rfl, rfl, rfl, rfl, rfl⟩

/-- C4 witness: the amended statement instantiated at a concrete handle and
a world with 10 rows. -/
theorem C4_slice_negative_positions_witness :
    ilocGetitem ⟨[("name", PValue.str "w4t")], [], none, false⟩ ⟨[], 10, [], 0⟩ (.rowInt (-2))
        = .ok ({ fromRow := 9, toRow := 8 }, "row", ["simple.numrows", "table.fetch"])
    ∧ ilocGetitem ⟨[("name", PValue.str "w4t")], [], none, false⟩ ⟨[], 10, [], 0⟩ (.rowInt 8)
        = .ok ({ fromRow := 9, toRow := 8 }, "row", ["table.fetch"]) :=
  ⟨(C4_slice_negative_positions ⟨[("name", PValue.str "w4t")], [], none, false⟩
      ⟨[], 10, [], 0⟩ (by decide)).2.2.1,
   (C4_slice_negative_positions ⟨[("name", PValue.str "w4t")], [], none, false⟩
      ⟨[], 10, [], 0⟩ (by decide)).2.2.2.1⟩

/-! ### C5 — subtraction on a character column -/

/-- C5 refutation: subtracting from a character-typed column raises
`AttributeError('sub')`, not a `TypeError`, and only after a remote
`table.columninfo` action has been invoked to resolve the column's type
(the claim asserts a `TypeError` raised without any remote call). -/
theorem C5_counterexample :
    colSub ⟨[("name", PValue.str "t5"), ("varlist", PValue.strs ["s"])], [], some 0, true⟩
        ⟨[("s", "char")], 10, [0], 0⟩ (.num 5)
      = (.error (.attributeError "sub"), ["table.columninfo"])
    ∧ raisedTypeError (colSub ⟨[("name", PValue.str "t5"), ("varlist", PValue.strs ["s"])],
        [], some 0, true⟩ ⟨[("s", "char")], 10, [0], 0⟩ (.num 5)).1 = false
    ∧ (colSub ⟨[("name", PValue.str "t5"), ("varlist", PValue.strs ["s"])], [], some 0, true⟩
        ⟨[("s", "char")], 10, [0], 0⟩ (.num 5)).2 ≠ [] := by
  refine ⟨rfl, rfl, ?_⟩
  decide

/-- C5 (amended): for every column handle whose server-reported type is a
character type, `sub` raises `AttributeError('sub')` — without building any
expression and without any data fetch — but the type dispatch itself first
invokes the remote `table.columninfo` metadata action. -/
theorem C5_char_sub_attribute_error (c : CASTable) (w : World) (v : OpVal) (ty : String)
    (hty : (colDtype c w).1 = .ok ty) (hchar : colIsCharacter ty = true) :
    colSub c w v = (.error (.attributeError "sub"), ["table.columninfo"]) := by
  have hpair : colDtype c w = (.ok ty, ["table.columninfo"]) := by
    have hshape : colDtype c w = ((colDtype c w).1, ["table.columninfo"]) := rfl
    rw [hshape, hty]
  unfold colSub
  rw [hpair]
  simp [hchar]

/-- C5 witness: the amended statement instantiated at a concrete `char`
column. -/
theorem C5_char_sub_attribute_error_witness :
    colSub ⟨[("name", PValue.str "t5w"), ("varlist", PValue.strs ["s"])], [], some 0, true⟩
        ⟨[("s", "varchar")], 10, [0], 0⟩ (.num 1)
      = (.error (.attributeError "sub"), ["table.columninfo"]) :=
  C5_char_sub_attribute_error
    ⟨[("name", PValue.str "t5w"), ("varlist", PValue.strs ["s"])], [], some 0, true⟩
    ⟨[("s", "varchar")], 10, [0], 0⟩ (.num 1) "varchar" (by decide) (by decide)

/-! ### C6 — handle equality -/

/-- C6 refutation: for two ColumnHandles with identical parameter bundles
(and a live connection), `a == b` does not return `True` — `CASColumn`
overrides `__eq__` to build an element-wise comparison column, so the
bundle-equality characterisation does not extend to columns. -/
theorem C6_counterexample :
    bundleEq [("name", PValue.str "t6"), ("varlist", PValue.strs ["a"])]
        [("name", PValue.str "t6"), ("varlist", PValue.strs ["a"])] = true
    ∧ (⟨[("name", PValue.str "t6"), ("varlist", PValue.strs ["a"])], [], some 0, true⟩
        : CASTable).isCol = true
    ∧ isBoolTrue (pyEq
        ⟨[("name", PValue.str "t6"), ("varlist", PValue.strs ["a"])], [], some 0, true⟩
        ⟨[("name", PValue.str "t6"), ("varlist", PValue.strs ["a"])], [], some 0, true⟩
        ⟨[("a", "double")], 10, [0], 0⟩) = false := by
  refine ⟨by decide, rfl, by decide⟩

/-- C6 (amended): for handles that are not ColumnHandles, `a == b` returns
`True` exactly when the two parameter bundles are equal; a ColumnHandle
instead rebinds `==` to an element-wise comparison that yields a new
computed column, so the characterisation holds only for non-column
handles. -/
theorem C6_table_equality (a b : CASTable) (w : World) (ha : a.isCol = false) :
    pyEq a b w = .ok (.bool (bundleEq a.params b.params))
    ∧ (isBoolTrue (pyEq a b w) = true ↔ bundleEq a.params b.params = true) := by
  have h1 : pyEq a b w = .ok (.bool (bundleEq a.params b.params)) := by
    simp [pyEq, ha]
  refine ⟨h1, ?_⟩
  rw [h1]
  cases hb : bundleEq a.params b.params <;> simp [isBoolTrue]

/-- C6 witness: the amended statement instantiated at two concrete plain
tables. -/
theorem C6_table_equality_witness :
    pyEq ⟨[("name", PValue.str "t6a")], [], none, false⟩
        ⟨[("name", PValue.str "t6b")], [], none, false⟩ ⟨[], 0, [], 0⟩
      = .ok (.bool (bundleEq [("name", PValue.str "t6a")] [("name", PValue.str "t6b")])) :=
  (C6_table_equality ⟨[("name", PValue.str "t6a")], [], none, false⟩
    ⟨[("name", PValue.str "t6b")], [], none, false⟩ ⟨[], 0, [], 0⟩ rfl).1

/-! ### C7 — connection resolution -/

/-- C7: `get_connection` raises the no-connection `SWATError` when the
connection reference was never set (or was set to `None`), and when the
weakly referenced connection object has been released; when a live
connection is registered it returns that connection. -/
theorem C7_get_connection (t : CASTable) (w : World) :
    (t.conn = none →
        getConnection t w = .error (.swatError "No connection is currently registered"))
    ∧ (∀ cid, t.conn = some cid → cid ∉ w.liveConns →
        getConnection t w = .error (.swatError "No connection is currently registered"))
    ∧ (∀ cid, t.conn = some cid → cid ∈ w.liveConns → getConnection t w = .ok cid) := by
  refine ⟨?_, ?_, ?_⟩
  · intro h
    unfold getConnection
    rw [h]
  · intro cid h hmem
    unfold getConnection
    rw [h]
    simp [hmem]
  · intro cid h hmem
    unfold getConnection
    rw [h]
    simp [hmem]

/-- C7 witness: the three cases at concrete handles — never set, released,
and live. -/
theorem C7_get_connection_witness :
    getConnection ⟨[("name", PValue.str "t7")], [], none, false⟩ ⟨[], 0, [7], 0⟩
        = .error (.swatError "No connection is currently registered")
    ∧ getConnection ⟨[("name", PValue.str "t7")], [], some 3, false⟩ ⟨[], 0, [7], 0⟩
        = .error (.swatError "No connection is currently registered")
    ∧ getConnection ⟨[("name", PValue.str "t7")], [], some 7, false⟩ ⟨[], 0, [7], 0⟩ = .ok 7 :=
  ⟨(C7_get_connection ⟨[("name", PValue.str "t7")], [], none, false⟩ ⟨[], 0, [7], 0⟩).1 rfl,
   (C7_get_connection ⟨[("name", PValue.str "t7")], [], some 3, false⟩ ⟨[], 0, [7], 0⟩).2.1 3
     rfl (by decide),
   (C7_get_connection ⟨[("name", PValue.str "t7")], [], some 7, false⟩ ⟨[], 0, [7], 0⟩).2.2 7
     rfl (by decide)⟩

/-! ### C8 — shallow copies share nothing mutable but the connection -/

/-- Reading the freshly allocated cell of a one-element extension. -/
theorem heapGet_concat_self (h : Heap) (x : Params) : heapGet (h ++ [x]) h.length = x := by
  unfold heapGet
  rw [List.getD_eq_getElem?_getD, List.getElem?_concat_length]
  rfl

/-- A one-element extension preserves the existing cells. -/
theorem heapGet_concat_lt (h : Heap) (x : Params) (i : Nat) (hi : i < h.length) :
    heapGet (h ++ [x]) i = heapGet h i := by
  unfold heapGet
  rw [List.getD_eq_getElem?_getD, List.getElem?_append, if_pos hi,
    ← List.getD_eq_getElem?_getD]

/-- Writing one cell leaves every other cell unchanged. -/
theorem heapGet_set_ne (h : Heap) (i j : Nat) (p : Params) (hij : i ≠ j) :
    heapGet (heapSet h i p) j = heapGet h j := by
  unfold heapGet heapSet
  rw [List.getD_eq_getElem?_getD, List.getElem?_set_ne hij, ← List.getD_eq_getElem?_getD]

/-- C8: a shallow copy receives its own bundle cell holding the same
parameters; afterwards, any in-place bundle mutation applied through either
handle leaves the other handle's bundle unchanged, and only the (weak)
connection reference is carried over. -/
theorem C8_shallow_copy_isolation (t : HRef) (h : Heap) (w : World)
    (f g : Params → Params) (hlt : t.pid < h.length) :
    heapGet (shallowCopyH t h w).2 (shallowCopyH t h w).1.pid = heapGet h t.pid
    ∧ heapGet (mutateH (shallowCopyH t h w).1 (shallowCopyH t h w).2 f) t.pid = heapGet h t.pid
    ∧ heapGet (mutateH t (shallowCopyH t h w).2 g) (shallowCopyH t h w).1.pid = heapGet h t.pid
    ∧ (∀ c, t.conn = some c → c ∈ w.liveConns → (shallowCopyH t h w).1.conn = some c)
    ∧ (t.conn = none → (shallowCopyH t h w).1.conn = none) := by
  have hne : t.pid ≠ h.length := Nat.ne_of_lt hlt
  refine ⟨?_, ?_, ?_, ?_, ?_⟩
  · show heapGet (h ++ [heapGet h t.pid]) h.length = heapGet h t.pid
    exact heapGet_concat_self h _
  · show heapGet (heapSet (h ++ [heapGet h t.pid]) h.length _) t.pid = heapGet h t.pid
    rw [heapGet_set_ne _ _ _ _ (Ne.symm hne), heapGet_concat_lt _ _ _ hlt]
  · show heapGet (heapSet (h ++ [heapGet h t.pid]) t.pid _) h.length = heapGet h t.pid
    rw [heapGet_set_ne _ _ _ _ hne, heapGet_concat_self]
  · intro c hc hlive
    simp [shallowCopyH, hc, hlive]
  · intro hc
    simp [shallowCopyH, hc]

/-- C8 witness: the isolation theorem at a one-cell heap, with a `where`
append through the copy and a `varlist` overwrite through the source. -/
theorem C8_shallow_copy_isolation_witness :
    heapGet (mutateH (shallowCopyH ⟨0, some 5⟩ [[("name", PValue.str "t8")]] ⟨[], 0, [5], 0⟩).1
        (shallowCopyH ⟨0, some 5⟩ [[("name", PValue.str "t8")]] ⟨[], 0, [5], 0⟩).2
        (fun p => appendWhere p ["x > 1"])) 0
      = heapGet [[("name", PValue.str "t8")]] 0
    ∧ heapGet (mutateH ⟨0, some 5⟩
        (shallowCopyH ⟨0, some 5⟩ [[("name", PValue.str "t8")]] ⟨[], 0, [5], 0⟩).2
        (fun p => setParam p "varlist" (.strs ["z"])))
        (shallowCopyH ⟨0, some 5⟩ [[("name", PValue.str "t8")]] ⟨[], 0, [5], 0⟩).1.pid
      = heapGet [[("name", PValue.str "t8")]] 0
    ∧ (shallowCopyH ⟨0, some 5⟩ [[("name", PValue.str "t8")]] ⟨[], 0, [5], 0⟩).1.conn = some 5 := by
  have hmain := C8_shallow_copy_isolation ⟨0, some 5⟩ [[("name", PValue.str "t8")]]
    ⟨[], 0, [5], 0⟩ (fun p => appendWhere p ["x > 1"])
    (fun p => setParam p "varlist" (.strs ["z"])) (by decide)
  exact ⟨hmain.2.1, hmain.2.2.1, hmain.2.2.2.1 5 rfl (by decide)⟩

/-! ### C1 — which construction-time operations perform remote I/O -/

/-- The action log of `sub` is always the single `table.columninfo` of the
dtype dispatch. -/
theorem colSub_log (c : CASTable) (w : World) (v : OpVal) :
    (colSub c w v).2 = ["table.columninfo"] := by
  have hshape : colDtype c w = ((colDtype c w).1, ["table.columninfo"]) := rfl
  unfold colSub
  rw [hshape]
  cases h1 : (colDtype c w).1 with
  | error e => rfl
  | ok ty =>
      by_cases hch : colIsCharacter ty = true <;> simp [hch]

/-- The action log of `add` is always the single `table.columninfo` of the
dtype dispatch. -/
theorem colAdd_log (c : CASTable) (w : World) (v : OpVal) :
    (colAdd c w v).2 = ["table.columninfo"] := by
  have hshape : colDtype c w = ((colDtype c w).1, ["table.columninfo"]) := rfl
  unfold colAdd
  rw [hshape]
  cases h1 : (colDtype c w).1 with
  | error e => rfl
  | ok ty =>
      by_cases hch : colIsCharacter ty = true <;> simp [hch]

/-- C1 refutation: column arithmetic is a construction-time operation, yet
`add` on a (numeric) column invokes the remote `table.columninfo` action to
resolve the column's type — its action log is not empty. -/
theorem C1_counterexample :
    (colAdd ⟨[("name", PValue.str "t1"), ("varlist", PValue.strs ["a"])], [], some 0, true⟩
        ⟨[("a", "double")], 10, [0], 0⟩ (.num 1)).2 ≠ [] := by
  decide

/-- C1 (amended): filtering via `query`/`append_where` touches only the
`where` parameter of the bundle, `sort_values` touches only the
`table.fetch` action parameters, and comparison operators build their
expression without any remote action; projection via list selection and
boolean-column filtering invoke no remote action when an explicit column
list (`varlist`) is stored, but fetch `table.columninfo` when it is absent;
column arithmetic (`add`/`sub`) always invokes `table.columninfo` to resolve
the column type — so those construction-time operations can raise remote
errors, while data fetches remain confined to materialising operations. -/
theorem C1_construction_io (t tv c cc : CASTable) (w : World) (expr : String)
    (keys : List CKey) (cols : List String) (asc : List Bool) (op : String)
    (v : OpVal) (vl : List String) :
    ((query t expr).conn = t.conn
      ∧ (query t expr).fetchSortby = t.fetchSortby
      ∧ ∀ k, keyEq k "where" = false →
          getParam (query t expr).params k = getParam t.params k)
    ∧ (sortValues t cols asc).params = t.params
    ∧ (getParam tv.params "varlist" = some (.strs vl) → vl ≠ [] →
        (getitemColList tv w keys).2 = [] ∧ (filterByColumn tv w cc).2 = [])
    ∧ (t.isCol = false → getParam t.params "varlist" = none →
        (getitemColList t w keys).2 = ["table.columninfo"])
    ∧ (colCompare c w op v).2 = []
    ∧ (colSub c w v).2 = ["table.columninfo"]
    ∧ (colAdd c w v).2 = ["table.columninfo"] := by
  refine ⟨⟨rfl, rfl, ?_⟩, rfl, ?_, ?_, rfl, colSub_log c w v, colAdd_log c w v⟩
  · intro k hk
    exact getParam_appendWhere t.params [expr] k hk
  · intro hv hvl
    have hcols : columnsOf tv w = (vl, []) := by
      unfold columnsOf varlistOf
      rw [hv]
      simp [hvl]
    constructor
    · unfold getitemColList
      by_cases hic : tv.isCol = true
      · rw [if_pos hic]
      · rw [if_neg hic, hcols]
        dsimp only
        split <;> rfl
    · unfold filterByColumn
      have hw : getParam (appendWhere tv.params [nlit ((colName cc).getD "")]) "varlist"
          = some (.strs vl) := by
        rw [getParam_appendWhere _ _ _ (by decide), hv]
      by_cases h2 : compvarsOf cc ≠ [] <;> by_cases h3 : comppgmOf cc ≠ "" <;>
        simp [h2, h3, hw, getParam_appendCompvars _ _ _ (by decide : keyEq "varlist" "compvars" = false),
          getParam_appendComppgm _ _ _ (by decide : keyEq "varlist" "comppgm" = false)]
  · intro hic hnone
    have hcols : columnsOf t w = (serverColumns w, ["table.columninfo"]) := by
      unfold columnsOf varlistOf
      rw [hnone]
      simp
    unfold getitemColList
    rw [if_neg (by rw [hic]; simp), hcols]
    dsimp only
    split <;> rfl

/-- C1 witness: the amended I/O profile at concrete handles — a table with a
stored column list (no remote action for projection and boolean filtering),
a table without one (one `table.columninfo`), and a numeric column
(comparisons act locally, arithmetic fetches the column metadata). -/
theorem C1_construction_io_witness :
    ((getitemColList ⟨[("name", PValue.str "t1v"), ("varlist", PValue.strs ["a", "b"])],
          [], none, false⟩ ⟨[("a", "double"), ("b", "double")], 10, [0], 0⟩
          [.name "a"]).2 = []
      ∧ (filterByColumn ⟨[("name", PValue.str "t1v"), ("varlist", PValue.strs ["a", "b"])],
          [], none, false⟩ ⟨[("a", "double"), ("b", "double")], 10, [0], 0⟩
          ⟨[("name", PValue.str "t1v"), ("varlist", PValue.strs ["a"])], [], some 0, true⟩).2 = [])
    ∧ (getitemColList ⟨[("name", PValue.str "t1n")], [], none, false⟩
          ⟨[("a", "double")], 10, [0], 0⟩ [.name "a"]).2 = ["table.columninfo"]
    ∧ (colCompare ⟨[("name", PValue.str "t1n"), ("varlist", PValue.strs ["a"])], [], some 0, true⟩
          ⟨[("a", "double")], 10, [0], 0⟩ ">" (.num 3)).2 = []
    ∧ (colSub ⟨[("name", PValue.str "t1n"), ("varlist", PValue.strs ["a"])], [], some 0, true⟩
          ⟨[("a", "double")], 10, [0], 0⟩ (.num 1)).2 = ["table.columninfo"] := by
  have h1 := C1_construction_io ⟨[("name", PValue.str "t1n")], [], none, false⟩
    ⟨[("name", PValue.str "t1v"), ("varlist", PValue.strs ["a", "b"])], [], none, false⟩
    ⟨[("name", PValue.str "t1n"), ("varlist", PValue.strs ["a"])], [], some 0, true⟩
    ⟨[("name", PValue.str "t1v"), ("varlist", PValue.strs ["a"])], [], some 0, true⟩
    ⟨[("a", "double"), ("b", "double")], 10, [0], 0⟩ "x > 1" [.name "a"] ["a"] [true] ">"
    (.num 3) ["a", "b"]
  have h2 := C1_construction_io ⟨[("name", PValue.str "t1n")], [], none, false⟩
    ⟨[("name", PValue.str "t1v"), ("varlist", PValue.strs ["a", "b"])], [], none, false⟩
    ⟨[("name", PValue.str "t1n"), ("varlist", PValue.strs ["a"])], [], some 0, true⟩
    ⟨[("name", PValue.str "t1v"), ("varlist", PValue.strs ["a"])], [], some 0, true⟩
    ⟨[("a", "double")], 10, [0], 0⟩ "x > 1" [.name "a"] ["a"] [true] ">" (.num 1) ["a", "b"]
  exact ⟨h1.2.2.1 rfl (by decide), h2.2.2.2.1 rfl rfl, h2.2.2.2.2.1, h2.2.2.2.2.2.1⟩

/-! ### C9 / C10 — support lemmas -/

/-- Name keys of a list selection resolve to themselves. -/
theorem mapM_names (cols : List String) (names : List String) :
    (names.map CKey.name).mapM (resolveCKey cols) = .ok names := by
  induction names with
  | nil => rfl
  | cons x xs ih =>
      rw [List.map_cons, List.mapM_cons]
      rw [ih]
      rfl

/-- `_get_unique(lowercase=True)` keeps a list untouched when no element
clashes with `seen` and the lower-casings are pairwise distinct (using that
lower-casing the listed names is idempotent). -/
theorem getUniqueLowerAux_eq_self (l : List String) (seen : List String)
    (hseen : ∀ x ∈ l, x ∉ seen ∧ lowStr x ∉ seen)
    (hpair : l.Pairwise (fun a b => lowStr a ≠ lowStr b))
    (hidem : ∀ x ∈ l, lowStr (lowStr x) = lowStr x) :
    getUniqueLowerAux seen l = l := by
  induction l generalizing seen with
  | nil => rfl
  | cons x xs ih =>
      obtain ⟨hx1, hx2⟩ := hseen x (List.mem_cons_self x xs)
      rw [getUniqueLowerAux, if_neg (by push_neg; exact ⟨hx1, hx2⟩)]
      congr 1
      apply ih
      · intro y hy
        have hpy : lowStr x ≠ lowStr y := (List.pairwise_cons.mp hpair).1 y hy
        obtain ⟨hy1, hy2⟩ := hseen y (List.mem_cons_of_mem x hy)
        refine ⟨?_, ?_⟩
        · intro hcon
          rcases List.mem_cons.mp hcon with hcx | hcs
          · exact hpy (hcx ▸ rfl)
          · exact hy1 hcs
        · intro hcon
          rcases List.mem_cons.mp hcon with hcx | hcs
          · have : lowStr (lowStr y) = lowStr x := hcx ▸ rfl
            rw [hidem y (List.mem_cons_of_mem x hy)] at this
            exact hpy this.symm
          · exact hy2 hcs
      · exact (List.pairwise_cons.mp hpair).2
      · intro y hy
        exact hidem y (List.mem_cons_of_mem x hy)

/-- `_get_unique(lowercase=True)` on pairwise case-distinct names is the
identity. -/
theorem getUniqueLower_eq_self (l : List String)
    (hpair : l.Pairwise (fun a b => lowStr a ≠ lowStr b))
    (hidem : ∀ x ∈ l, lowStr (lowStr x) = lowStr x) :
    getUniqueLower l = l :=
  getUniqueLowerAux_eq_self l [] (by intro x _; simp) hpair hidem

/-- `_get_unique` never loses an element: the first occurrence is kept. -/
theorem mem_getUniqueAux (x : String) (l seen : List String)
    (hx : x ∈ l) (hs : x ∉ seen) : x ∈ getUniqueAux seen l := by
  induction l generalizing seen with
  | nil => cases hx
  | cons y ys ih =>
      rw [getUniqueAux]
      by_cases hy : y ∈ seen
      · rw [if_pos hy]
        rcases List.mem_cons.mp hx with hxy | hxs
        · exact absurd (hxy ▸ hy) hs
        · exact ih seen hxs hs
      · rw [if_neg hy]
        rcases List.mem_cons.mp hx with hxy | hxs
        · exact hxy ▸ List.mem_cons_self y _
        · by_cases hxy2 : x = y
          · exact hxy2 ▸ List.mem_cons_self y _
          · refine List.mem_cons_of_mem y (ih (y :: seen) hxs ?_)
            intro hcon
            rcases List.mem_cons.mp hcon with h1 | h2
            · exact hxy2 h1
            · exact hs h2

/-- `_get_unique` preserves membership. -/
theorem mem_getUnique (x : String) (l : List String) (hx : x ∈ l) :
    x ∈ getUnique l :=
  mem_getUniqueAux x l [] hx (by simp)

/-- Appending the empty string on the left is the identity. -/
theorem strEmptyAppend (s : String) : "" ++ s = s := by
  cases s
  rfl

/-- A member of a list of code blocks appears inside their concatenation. -/
theorem joinStrs_split (x : String) (l : List String) (hx : x ∈ l) :
    ∃ pre post, joinStrs l = pre ++ x ++ post := by
  induction l with
  | nil => cases hx
  | cons y ys ih =>
      rcases List.mem_cons.mp hx with hxy | hxs
      · refine ⟨"", joinStrs ys, ?_⟩
        rw [joinStrs, strEmptyAppend, hxy]
      · obtain ⟨pre, post, hsplit⟩ := ih hxs
        refine ⟨y ++ pre, post, ?_⟩
        rw [joinStrs, hsplit, ← String.append_assoc, ← String.append_assoc]

/-- Every missing-value assignment block already ends in a semicolon, so the
`append_comppgm` normalisation leaves it unchanged. -/
theorem endsSemi_missing (x : String) : endsSemi (x ++ " = .; ") = true := by
  unfold endsSemi endsWithStr trimR
  rw [String.data_append]
  have hrev : (x.data ++ (" = .; ").data).reverse
      = ' ' :: ';' :: '.' :: ' ' :: '=' :: ' ' :: x.data.reverse := by
    rw [List.reverse_append]
    rfl
  rw [hrev]
  rw [List.dropWhile_cons, if_pos (by decide), List.dropWhile_cons,
    if_neg (by decide)]
  show List.isSuffixOf _ _ = true
  unfold List.isSuffixOf
  rw [List.reverse_reverse]
  rfl

/-- A missing-value assignment block is never the empty string. -/
theorem missing_block_ne_empty (x : String) : (x ++ " = .; ") ≠ "" := by
  intro hcon
  have hd := congrArg String.data hcon
  rw [String.data_append] at hd
  rcases List.append_eq_nil.mp hd with ⟨_, h2⟩
  cases h2

/-- Evaluation shape of a list selection whose keys are all names. -/
theorem getitemColList_names_eq (t : CASTable) (w : World) (names : List String)
    (ht : t.isCol = false) :
    getitemColList t w (names.map CKey.name)
      = (.ok (listSelOut t w names), (columnsOf t w).2) := by
  unfold getitemColList listSelOut
  rw [if_neg (by rw [ht]; simp)]
  dsimp only
  rw [mapM_names]

/-! ### C9 — list selection -/

/-- C9: selecting `tbl[[k1, ..., kn]]` (for pairwise case-distinct,
non-empty names) succeeds without raising: the result's `varlist` is exactly
the requested names in the requested order, so its visible columns are those
names with no further remote call; every requested name that matches no
visible column case-insensitively becomes a computed variable whose program
binds it to the missing value (`name = .;`); and integer positions resolve
to the name at that position of the visible columns.  (The source handle is
untouched — the selection operates on a deep copy.) -/
theorem C9_list_selection (t : CASTable) (w : World) (names : List String)
    (ht : t.isCol = false)
    (hcv : getParam t.params "compvars" = none)
    (hcp : getParam t.params "comppgm" = none)
    (hnil : names ≠ [])
    (hne : ∀ x ∈ names, x ≠ "")
    (hpair : names.Pairwise (fun a b => lowStr a ≠ lowStr b))
    (hidem : ∀ x ∈ names, lowStr (lowStr x) = lowStr x) :
    ((getitemColList t w (names.map CKey.name)).1 = .ok (listSelOut t w names)
      ∧ getParam (listSelOut t w names).params "varlist" = some (.strs names)
      ∧ columnsOf (listSelOut t w names) w = (names, [])
      ∧ (∀ k ∈ names, (((columnsOf t w).1.map lowStr).contains (lowStr k)) = false →
          k ∈ compvarsOf (listSelOut t w names)
          ∧ ∃ pre post,
              comppgmOf (listSelOut t w names) = pre ++ (nlit k ++ " = .; ") ++ post))
    ∧ (∀ (cs : List String) (i : Int), 0 ≤ i → i < (cs.length : Int) →
        resolveCKey cs (.pos i) = .ok (cs.getD i.toNat "")) := by
  constructor
  · set unknown := names.filter
      (fun k => !(((columnsOf t w).1.map lowStr).contains (lowStr k))) with hunk
    have hsubnames : ∀ x ∈ unknown, x ∈ names := by
      intro x hx
      exact (List.mem_filter.mp hx).1
    have hfirst : (getitemColList t w (names.map CKey.name)).1
        = .ok (listSelOut t w names) := by
      rw [getitemColList_names_eq t w names ht]
    by_cases hu : unknown ≠ []
    · -- some requested names are unknown: computed columns are registered
      have hsel : listSelOut t w names
          = { t with
                params := appendComputedColumns (setParam t.params "varlist" (.strs names))
                  unknown (unknown.map (fun k => nlit k ++ " = .; ")) } := by
        unfold listSelOut
        dsimp only
        rw [← hunk, if_pos hu]
      have hvar : getParam (listSelOut t w names).params "varlist"
          = some (.strs names) := by
        rw [hsel]
        show getParam (appendComputedColumns _ _ _) "varlist" = _
        unfold appendComputedColumns
        rw [getParam_appendComppgm _ _ _ (by decide),
          getParam_appendCompvars _ _ _ (by decide), getParam_setParam]
      refine ⟨hfirst, hvar, ?_, ?_⟩
      · unfold columnsOf varlistOf
        rw [hvar]
        simp [hnil]
      · intro k hk hkcon
        have hkunk : k ∈ unknown := by
          rw [hunk]
          refine List.mem_filter.mpr ⟨hk, ?_⟩
          rw [hkcon]
          rfl
        have hfilterunk : unknown.filter (fun x => x != "") = unknown := by
          refine List.filter_eq_self.mpr ?_
          intro a ha
          exact bne_iff_ne.mpr (hne a (hsubnames a ha))
        have hpairunk : unknown.Pairwise (fun a b => lowStr a ≠ lowStr b) :=
          List.Pairwise.sublist (List.filter_sublist names) hpair
        have hidemunk : ∀ x ∈ unknown, lowStr (lowStr x) = lowStr x := by
          intro x hx
          exact hidem x (hsubnames x hx)
        have hp1cv : getParam (setParam t.params "varlist" (.strs names)) "compvars"
            = none := by
          rw [getParam_setParam_ne _ _ _ _ (by decide)]
          exact hcv
        have hcompv : appendCompvars (setParam t.params "varlist" (.strs names)) unknown
            = setParam (setParam t.params "varlist" (.strs names)) "compvars"
                (.strs unknown) := by
          unfold appendCompvars
          rw [hp1cv]
          dsimp only
          rw [List.nil_append, hfilterunk,
            getUniqueLower_eq_self unknown hpairunk hidemunk]
        constructor
        · rw [hsel]
          show k ∈ compvarsOf { t with params := appendComputedColumns _ _ _ }
          unfold compvarsOf appendComputedColumns
          rw [show getParam (appendComppgm (appendCompvars
              (setParam t.params "varlist" (.strs names)) unknown)
              (unknown.map (fun k => nlit k ++ " = .; "))) "compvars"
                = some (.strs unknown) from by
            rw [getParam_appendComppgm _ _ _ (by decide), hcompv, getParam_setParam]]
          exact hkunk
        · have hp2cp : getParam (appendCompvars (setParam t.params "varlist" (.strs names))
              unknown) "comppgm" = none := by
            rw [getParam_appendCompvars _ _ _ (by decide),
              getParam_setParam_ne _ _ _ _ (by decide)]
            exact hcp
          have hblockfilter : (unknown.map (fun k => nlit k ++ " = .; ")).filter
              (fun x => x != "") = unknown.map (fun k => nlit k ++ " = .; ") := by
            refine List.filter_eq_self.mpr ?_
            intro a ha
            obtain ⟨b, _, hb⟩ := List.mem_map.mp ha
            exact bne_iff_ne.mpr (hb ▸ missing_block_ne_empty (nlit b))
          have hblocknorm : ((unknown.map (fun k => nlit k ++ " = .; ")).map
              (fun b => if endsSemi b then b else trimR b ++ "; "))
                = unknown.map (fun k => nlit k ++ " = .; ") := by
            rw [List.map_map]
            refine List.map_congr_left ?_
            intro a _
            show (if endsSemi (nlit a ++ " = .; ") = true then nlit a ++ " = .; "
              else trimR (nlit a ++ " = .; ") ++ "; ") = nlit a ++ " = .; "
            rw [endsSemi_missing, if_pos rfl]
          have hpgm : appendComppgm (appendCompvars
              (setParam t.params "varlist" (.strs names)) unknown)
              (unknown.map (fun k => nlit k ++ " = .; "))
                = setParam (appendCompvars (setParam t.params "varlist" (.strs names))
                    unknown) "comppgm"
                    (.str (joinStrs (getUnique
                      (unknown.map (fun k => nlit k ++ " = .; "))))) := by
            unfold appendComppgm
            rw [hp2cp]
            dsimp only
            rw [List.nil_append, hblockfilter, hblocknorm]
          have hmemblock : (nlit k ++ " = .; ") ∈ getUnique
              (unknown.map (fun k => nlit k ++ " = .; ")) :=
            mem_getUnique _ _ (List.mem_map_of_mem (fun k => nlit k ++ " = .; ") hkunk)
          obtain ⟨pre, post, hsplit⟩ := joinStrs_split _ _ hmemblock
          refine ⟨pre, post, ?_⟩
          rw [hsel]
          show comppgmOf { t with params := appendComputedColumns _ _ _ } = _
          unfold comppgmOf appendComputedColumns
          rw [show getParam (appendComppgm (appendCompvars
              (setParam t.params "varlist" (.strs names)) unknown)
              (unknown.map (fun k => nlit k ++ " = .; "))) "comppgm"
                = some (.str (joinStrs (getUnique
                  (unknown.map (fun k => nlit k ++ " = .; "))))) from by
            rw [hpgm, getParam_setParam]]
          exact hsplit
    · -- every requested name is visible: only the varlist is replaced
      have hsel : listSelOut t w names
          = { t with params := setParam t.params "varlist" (.strs names) } := by
        unfold listSelOut
        dsimp only
        rw [← hunk, if_neg hu]
      have hvar : getParam (listSelOut t w names).params "varlist"
          = some (.strs names) := by
        rw [hsel]
        exact getParam_setParam t.params "varlist" (.strs names)
      refine ⟨hfirst, hvar, ?_, ?_⟩
      · unfold columnsOf varlistOf
        rw [hvar]
        simp [hnil]
      · intro k hk hkcon
        exfalso
        have hkunk : k ∈ unknown := by
          rw [hunk]
          refine List.mem_filter.mpr ⟨hk, ?_⟩
          rw [hkcon]
          rfl
        rw [not_not.mp hu] at hkunk
        cases hkunk
  · intro cs i h0 hlen
    unfold resolveCKey
    dsimp only
    rw [if_neg (by omega : ¬ i < 0), if_pos ⟨h0, hlen⟩]

/-- C9 witness: selecting `[["B", "zz"]]` on a table whose server columns
are `a`, `b` keeps `B` (a case-insensitive match) and binds `zz` to a
missing-value computed column. -/
theorem C9_list_selection_witness :
    (getitemColList ⟨[("name", PValue.str "t9")], [], none, false⟩
        ⟨[("a", "double"), ("b", "char")], 10, [], 0⟩ [.name "B", .name "zz"]).1
      = .ok (listSelOut ⟨[("name", PValue.str "t9")], [], none, false⟩
          ⟨[("a", "double"), ("b", "char")], 10, [], 0⟩ ["B", "zz"])
    ∧ getParam (listSelOut ⟨[("name", PValue.str "t9")], [], none, false⟩
        ⟨[("a", "double"), ("b", "char")], 10, [], 0⟩ ["B", "zz"]).params "varlist"
      = some (.strs ["B", "zz"])
    ∧ "zz" ∈ compvarsOf (listSelOut ⟨[("name", PValue.str "t9")], [], none, false⟩
        ⟨[("a", "double"), ("b", "char")], 10, [], 0⟩ ["B", "zz"])
    ∧ resolveCKey ["a", "b"] (.pos 1) = .ok (["a", "b"].getD (1 : Int).toNat "") := by
  have h := C9_list_selection ⟨[("name", PValue.str "t9")], [], none, false⟩
    ⟨[("a", "double"), ("b", "char")], 10, [], 0⟩ ["B", "zz"] rfl (by decide) (by decide)
    (by decide) (by decide) (by decide) (by decide)
  exact ⟨h.1.1, h.1.2.1, (h.1.2.2.2 "zz" (by decide) (by decide)).1,
    h.2 ["a", "b"] 1 (by decide) (by decide)⟩

/-! ### C10 — single string key -/

/-- C10: on a non-column handle, `tbl[key]` with a single string key raises
`KeyError(key)` when the key matches no visible column case-insensitively,
and otherwise narrows the handle to a ColumnHandle whose `name` is the
requested key (in the requested casing) — in contrast to list selection,
which fabricates missing-value computed columns for unknown names. -/
theorem C10_single_string_key (t : CASTable) (w : World) (key : String)
    (ht : t.isCol = false) :
    (((columnsOf t w).1.map lowStr).contains (lowStr key) = false →
        (getitemColname t w key).1 = .error (.keyErrorS key))
    ∧ (((columnsOf t w).1.map lowStr).contains (lowStr key) = true →
        (getitemColname t w key).1 = .ok (toColumn t w (some key))
        ∧ colName (toColumn t w (some key)) = some key
        ∧ (toColumn t w (some key)).isCol = true) := by
  constructor
  · intro hmem
    unfold getitemColname
    rw [if_neg (by rw [ht]; simp)]
    dsimp only
    rw [hmem]
    rfl
  · intro hmem
    unfold getitemColname
    rw [if_neg (by rw [ht]; simp)]
    dsimp only
    rw [hmem]
    refine ⟨rfl, ?_, rfl⟩
    unfold colName toColumn
    dsimp only
    rw [getParam_setParam]
    rfl

/-- C10 witness: the key `"zz"` raises `KeyError`, the key `"B"` (matching
server column `b` case-insensitively) yields a ColumnHandle named `B`. -/
theorem C10_single_string_key_witness :
    (getitemColname ⟨[("name", PValue.str "t10")], [], none, false⟩
        ⟨[("a", "double"), ("b", "char")], 10, [], 0⟩ "zz").1 = .error (.keyErrorS "zz")
    ∧ (getitemColname ⟨[("name", PValue.str "t10")], [], none, false⟩
        ⟨[("a", "double"), ("b", "char")], 10, [], 0⟩ "B").1
      = .ok (toColumn ⟨[("name", PValue.str "t10")], [], none, false⟩
          ⟨[("a", "double"), ("b", "char")], 10, [], 0⟩ (some "B"))
    ∧ colName (toColumn ⟨[("name", PValue.str "t10")], [], none, false⟩
        ⟨[("a", "double"), ("b", "char")], 10, [], 0⟩ (some "B")) = some "B" := by
  have h1 := C10_single_string_key ⟨[("name", PValue.str "t10")], [], none, false⟩
    ⟨[("a", "double"), ("b", "char")], 10, [], 0⟩ "zz" rfl
  have h2 := C10_single_string_key ⟨[("name", PValue.str "t10")], [], none, false⟩
    ⟨[("a", "double"), ("b", "char")], 10, [], 0⟩ "B" rfl
  exact ⟨h1.1 (by decide), (h2.2 (by decide)).1, (h2.2 (by decide)).2.1⟩

end Swat
